import Mathlib

/-!
Verification development for the DocsOS backend (FastAPI + MongoDB).

The development shallowly embeds the data-access layer of `src/main.py` and
`src/schemas.py`:

* the identity codec (`bson.ObjectId` as a 12-byte handle, 24-char hex text);
* Mongo-style records as association lists of string keys and values;
* `serialize_doc`, `list_sections`, `create_doc`, `list_docs` from `src/main.py`;
* pydantic validation of the `Section` schema from `src/schemas.py`;
* the upload filename allocation loop of `upload_image` in `src/main.py`;
* the `/test` health endpoint `test_database` from `src/main.py`.

The module `database.py` (the document-store gateway) is imported by
`src/main.py` but is not part of the source tree; where a definition depends on
it, the definition is modelled from the specification and says so in its doc
comment.
-/

/-! ### Identity codec (bson.ObjectId) -/

/-- An internal identity handle: `bson.ObjectId` is a 12-byte value.  The
`bytes` field lists the byte values; store-generated ids have length 12 with
every entry below 256. -/
structure OId where
  bytes : List Nat
deriving DecidableEq, Repr

/-- Lowercase hexadecimal digit for `n < 16`, as produced by `binascii.hexlify`
(`'0'` has code 48, `'a'` has code 97, so the letter branch is `87 + n`). -/
def hexDigitChar (n : Nat) : Char :=
  if n < 10 then Char.ofNat (48 + n) else Char.ofNat (87 + n)

/-- The two lowercase hex characters of one byte. -/
def byteHex (b : Nat) : List Char :=
  [hexDigitChar (b / 16), hexDigitChar (b % 16)]

/-- `str(oid)`: the canonical textual form of an ObjectId — 24 lowercase hex
characters (`binascii.hexlify` of the 12 bytes). -/
def encodeOId (o : OId) : String :=
  ⟨o.bytes.flatMap byteHex⟩

/-- A character accepted by `bytes.fromhex` as a hex digit (both cases). -/
def isHexChar (c : Char) : Bool :=
  (48 ≤ c.toNat && c.toNat ≤ 57) || (97 ≤ c.toNat && c.toNat ≤ 102) ||
    (65 ≤ c.toNat && c.toNat ≤ 70)

/-- Numeric value of a hex digit character. -/
def hexVal (c : Char) : Nat :=
  if 48 ≤ c.toNat && c.toNat ≤ 57 then c.toNat - 48
  else if 97 ≤ c.toNat && c.toNat ≤ 102 then c.toNat - 87
  else c.toNat - 55

/-- `ObjectId.is_valid` on strings: a 24-character string of hexadecimal
digits (either case) is a well-formed identity. -/
def is_valid (s : String) : Bool :=
  s.length == 24 && s.data.all isHexChar

/-- Parse pairs of hex characters into bytes (`bytes.fromhex`). -/
def parseHexBytes : List Char → List Nat
  | c1 :: c2 :: rest => (hexVal c1 * 16 + hexVal c2) :: parseHexBytes rest
  | _ => []

/-- `ObjectId(s)` under the `is_valid` guard: the 12-byte handle named by a
well-formed identity string. -/
def parseOId (s : String) : OId :=
  ⟨parseHexBytes s.data⟩

/-- The guarded decoder: parses a textual identity, reports `none` on
malformed input instead of throwing (`ObjectId(s) if ObjectId.is_valid(s)
else None`, the pattern used at `src/main.py` line 83). -/
def decodeOId (s : String) : Option OId :=
  if is_valid s then some (parseOId s) else none

/-! ### Mongo-style records -/

/-- A stored field value.  The entities of this system store null, text,
integers, ObjectId references and arrays of text (the `tags` field). -/
inductive Value where
  | vNull
  | vStr (s : String)
  | vInt (n : Int)
  | vOid (o : OId)
  | vArr (xs : List String)
deriving DecidableEq, Repr

/-- A record (Python dict / Mongo document): association list preserving
insertion order, keys unique as in a dict. -/
abbrev Record := List (String × Value)

/-- First value stored under a key (`doc[k]` / `doc.get(k)`). -/
def Record.get? : Record → String → Option Value
  | [], _ => none
  | (k', v) :: rest, k => if k' == k then some v else Record.get? rest k

/-- Remove a key (`doc.pop(k)` discards the entry). -/
def Record.erase (r : Record) (k : String) : Record :=
  r.filter (fun p => !(p.1 == k))

/-- `doc[k] = v`: replace the value in place if the key is present, else
append the new key at the end (dict insertion order). -/
def Record.set : Record → String → Value → Record
  | [], k, v => [(k, v)]
  | (k', v') :: rest, k, v =>
    if k' == k then (k, v) :: rest else (k', v') :: Record.set rest k v

/-! ### serialize_doc (src/main.py lines 24-35) -/

/-- `oid_str(oid)`: `str(oid) if isinstance(oid, ObjectId) else oid`. -/
def oid_str : Value → Value
  | .vOid o => .vStr (encodeOId o)
  | v => v

/-- `serialize_doc(doc)`: move `_id` to a textual `id`, convert an ObjectId
`section_id` to text, leave everything else as stored. -/
def serialize_doc (doc : Record) : Record :=
  if doc.isEmpty then doc
  else
    let idv := (Record.get? doc "_id").getD .vNull
    let d1 := Record.erase doc "_id"
    let d2 := Record.set d1 "id" (oid_str idv)
    match Record.get? d2 "section_id" with
    | some (.vOid o) => Record.set d2 "section_id" (.vStr (encodeOId o))
    | _ => d2

/-! ### Schema validators (src/schemas.py) -/

/-- A validated `Section` (pydantic model `Section` in `src/schemas.py`):
`title: str` required, `description: Optional[str] = None`,
`order: Optional[int] = Field(None, ge=0)`. -/
structure Section where
  title : String
  description : Option String
  order : Option Int
deriving DecidableEq, Repr

/-- A validated `Doc` (pydantic model `Doc` in `src/schemas.py`):
`section_id: str` and `title: str` required, `content: str = ""`,
`tags: Optional[List[str]] = None`, `cover_image: Optional[str] = None`. -/
structure Doc where
  section_id : String
  title : String
  content : String
  tags : Option (List String)
  cover_image : Option String
deriving DecidableEq, Repr

/-- The collected per-field errors of a validation run: each failed field
contributes its message, and all are reported together. -/
def fieldErrors (t : Except String String) (d : Except String (Option String))
    (o : Except String (Option Int)) : List String :=
  (match t with | .error e => [e] | .ok _ => []) ++
  (match d with | .error e => [e] | .ok _ => []) ++
  (match o with | .error e => [e] | .ok _ => [])

/-- Pydantic body validation for `Section` over a JSON object.  The model
covers the JSON shapes the schema admits — a string title, an optional string
description, an optional integer order constrained by `ge=0`; each failed
field contributes its own error, and all are reported together. -/
def validateSection (r : Record) : Except (List String) Section :=
  let titleR : Except String String :=
    match Record.get? r "title" with
    | some (.vStr s) => .ok s
    | some _ => .error "title: Input should be a valid string"
    | none => .error "title: Field required"
  let descR : Except String (Option String) :=
    match Record.get? r "description" with
    | none => .ok none
    | some .vNull => .ok none
    | some (.vStr s) => .ok (some s)
    | some _ => .error "description: Input should be a valid string"
  let orderR : Except String (Option Int) :=
    match Record.get? r "order" with
    | none => .ok none
    | some .vNull => .ok none
    | some (.vInt n) =>
      if 0 ≤ n then .ok (some n)
      else .error "order: Input should be greater than or equal to 0"
    | some _ => .error "order: Input should be a valid integer"
  match titleR, descR, orderR with
  | .ok t, .ok d, .ok o => .ok ⟨t, d, o⟩
  | t, d, o => .error (fieldErrors t d o)

/-- `Value` for an optional string field of a model dump. -/
def optStr : Option String → Value
  | none => .vNull
  | some s => .vStr s

/-- `Value` for an optional integer field of a model dump. -/
def optInt : Option Int → Value
  | none => .vNull
  | some n => .vInt n

/-- `Value` for an optional list-of-strings field of a model dump. -/
def optArr : Option (List String) → Value
  | none => .vNull
  | some xs => .vArr xs

/-- `payload.model_dump()` for a `Doc`, fields in declaration order. -/
def Doc.dump (p : Doc) : Record :=
  [("section_id", .vStr p.section_id), ("title", .vStr p.title),
   ("content", .vStr p.content), ("tags", optArr p.tags),
   ("cover_image", optStr p.cover_image)]

/-- `payload.model_dump()` for a `Section`, fields in declaration order. -/
def Section.dump (s : Section) : Record :=
  [("title", .vStr s.title), ("description", optStr s.description),
   ("order", optInt s.order)]

/-! ### The document store state -/

/-- The two collections of the store (`db["section"]`, `db["doc"]`), each a
list of records in store-native (insertion) order. -/
structure DB where
  sections : List Record
  docs : List Record
deriving DecidableEq, Repr

/-- An HTTP error surfaced by a route (`HTTPException`). -/
structure HErr where
  status : Nat
  detail : String
deriving DecidableEq, Repr

/-! ### Entity repository (src/main.py lines 60-104) -/

/-- `db["section"].find_one({"_id": oid})`: first section whose `_id` equals
the given identity. -/
def findSection (db : DB) (o : OId) : Option Record :=
  db.sections.find? (fun r => Record.get? r "_id" == some (.vOid o))

/-- Python truthiness of the `find_one` result: `None` and the empty dict are
falsy (`if not sec` at `src/main.py` line 84). -/
def pyFalsy : Option Record → Bool
  | none => true
  | some r => r.isEmpty

/-- `create_doc` (`src/main.py` lines 79-93).  `newId` is the identity the
store generates for the inserted document.  The insert happens only after the
section-existence check, so the error branch leaves the store untouched. -/
def create_doc (db : DB) (newId : OId) (p : Doc) : DB × Except HErr String :=
  let sec : Option Record :=
    if is_valid p.section_id then findSection db (parseOId p.section_id) else none
  if pyFalsy sec then (db, .error ⟨400, "Section not found"⟩)
  else
    let data := Record.set (Doc.dump p) "section_id" (.vOid (parseOId p.section_id))
    let stored : Record := ("_id", .vOid newId) :: data
    ({ db with docs := db.docs ++ [stored] }, .ok (encodeOId newId))

/-- `db["doc"].find(query)`: the documents matching every field of the query,
in store-native order. -/
def findDocs (db : DB) (query : Record) : List Record :=
  db.docs.filter (fun r => query.all (fun p => Record.get? r p.1 == some p.2))

/-- `list_docs` (`src/main.py` lines 95-104): an empty query unless the
`section_id` parameter is supplied, non-empty and a well-formed identity, in
which case the query restricts to that section. -/
def list_docs (db : DB) (section_id : Option String) : List Record :=
  let query : Record :=
    match section_id with
    | some s => if s != "" && is_valid s then [("section_id", .vOid (parseOId s))] else []
    | none => []
  (findDocs db query).map serialize_doc

/-- The sort key of `items.sort(key=lambda x: x.get("order", 0))` at
`src/main.py` line 73, on the value domain of the `order` schema field
(absent, null, or an integer): `some` the integer used in comparisons, or
`none` when the key is Python `None`, which no integer compares against. -/
def orderKeyInt (r : Record) : Option Int :=
  match Record.get? r "order" with
  | none => some 0
  | some (.vInt n) => some n
  | some _ => none

/-- Total comparison key: the integer actually compared (defaulting the
impossible case). -/
def okey (r : Record) : Int :=
  (orderKeyInt r).getD 0

/-- Boolean order used for the stable sort. -/
def okeyLe (a b : Record) : Bool :=
  decide (okey a ≤ okey b)

/-- `list_sections` (`src/main.py` lines 69-76): fetch all section records,
sort them stably and ascending by `x.get("order", 0)`, serialize each.
CPython raises `TypeError` as soon as a comparison involves `None`, which
happens exactly when the list has at least two elements and some key is
`None`; the route turns that exception into an HTTP 500.  A stable sort is
embedded by `List.mergeSort`, which has the same input-output behaviour as
the stable CPython sort. -/
def list_sections (items : List Record) : Except String (List Record) :=
  if 2 ≤ items.length && items.any (fun r => (orderKeyInt r).isNone) then
    .error "TypeError: unsupported comparison with NoneType"
  else
    .ok ((items.mergeSort okeyLe).map serialize_doc)

/-- Modelled from the spec: `create_document` lives in `database.py`, which
is not under `src/`; section 4.3 of the specification says insert "persists a
mapping of fields" and "returns the newly generated identity".  The inserted
record carries the validated fields of the section keyed by a
store-generated `_id`. -/
def create_document_section (db : DB) (newId : OId) (s : Section) : DB × String :=
  ({ db with sections := db.sections ++ [("_id", .vOid newId) :: Section.dump s] },
   encodeOId newId)

/-- `create_section` (`src/main.py` lines 61-67) including the body
validation the framework performs before the route body runs; the insert
itself is the spec-modelled `create_document_section`. -/
def create_section (db : DB) (newId : OId) (raw : Record) :
    DB × Except (List String) String :=
  match validateSection raw with
  | .error es => (db, .error es)
  | .ok s =>
    let r := create_document_section db newId s
    (r.1, .ok r.2)

/-! ### Upload namer (src/main.py lines 106-128) -/

/-- The fixed upload directory (`UPLOAD_DIR = "uploads"`). -/
def UPLOAD_DIR : String := "uploads"

/-- `f.startswith("/")`: whether the path component is absolute. -/
def startsWithSep (f : String) : Bool :=
  f.data.head? == some '/'

/-- `os.path.join(UPLOAD_DIR, f)` on posix: an absolute component discards
the directory. -/
def pjoin (d f : String) : String :=
  if startsWithSep f then f else d ++ "/" ++ f

/-- Index of the last occurrence of a character, `-1` when absent
(`str.rfind`). -/
def rfindIdx : List Char → Char → Int
  | [], _ => -1
  | x :: xs, c =>
    let r := rfindIdx xs c
    if 0 ≤ r then r + 1 else if x == c then 0 else -1

/-- `os.path.splitext` over the character list: split at the last dot that
lies after the last separator, unless every character between them is a dot
(leading dots of the basename never start an extension). -/
def splitextL (p : List Char) : List Char × List Char :=
  let sepIndex := rfindIdx p '/'
  let dotIndex := rfindIdx p '.'
  if sepIndex < dotIndex &&
      ((p.drop (sepIndex + 1).toNat).take (dotIndex - sepIndex - 1).toNat).any
        (fun c => c != '.') then
    (p.take dotIndex.toNat, p.drop dotIndex.toNat)
  else
    (p, [])

/-- `os.path.splitext` on strings. -/
def splitext (p : String) : String × String :=
  ((splitextL p.data).1.asString, (splitextL p.data).2.asString)

/-- The candidate filename of suffix index `i`: the original name for
`i = 0`, and `f"{base}_{i}{ext}"` for the probed suffixes. -/
def cand (f base ext : String) (i : Nat) : String :=
  if i = 0 then f else base ++ "_" ++ Nat.repr i ++ ext

/-- The collision-avoidance loop of `upload_image` (`src/main.py` lines
118-123): while the joined path of the current filename exists, move to
`f"{base}_{idx}{ext}"` and bump the index.  The source loop is unbounded;
here it carries fuel, and the theorems below show that
`existing.length + 1` steps always reach a free name, so the fuelled loop
computes exactly what the source loop returns. -/
def nameLoop (existing : List String) (base ext : String) :
    Nat → Nat → String → String
  | 0, _, filename => filename
  | fuel + 1, idx, filename =>
    if existing.contains (pjoin UPLOAD_DIR filename) then
      nameLoop existing base ext fuel (idx + 1) (base ++ "_" ++ Nat.repr idx ++ ext)
    else filename

/-- The stored filename chosen for an upload, given the set of paths that
already exist on disk. -/
def upload_name (existing : List String) (f : String) : String :=
  nameLoop existing (splitext f).1 (splitext f).2 (existing.length + 1) 1 f

/-- One sequential `upload_image` call: choose the name, write the file (the
path now exists), expose the static URL. -/
def upload_image (existing : List String) (f : String) : List String × String :=
  let name := upload_name existing f
  (existing ++ [pjoin UPLOAD_DIR name], "/static/" ++ name)

/-! ### The /test health endpoint (src/main.py lines 136-164) -/

/-- The observable behaviour of the store handle inside `test_database`: its
name, and the outcome of `list_collection_names()` — a list, or the message
of the exception the call raised. -/
structure DBConn where
  name : String
  collectionNames : Except String (List String)
deriving Repr

/-- The response dictionary of the `/test` endpoint. -/
structure TestResponse where
  backend : String
  database : String
  database_url : String
  database_name : String
  connection_status : String
  collections : List String
deriving DecidableEq, Repr

/-- `test_database` (`src/main.py` lines 136-164).  The whole store
interaction sits in a `try` block whose handler writes the error message into
the `database` field, so the endpoint always returns a response; the final
two lines overwrite `database_url` and `database_name` from the environment
unconditionally. -/
def test_database (db : Option DBConn) (urlSet nameSet : Bool) : TestResponse :=
  let afterTry : String × String × List String :=
    match db with
    | some c =>
      match c.collectionNames with
      | .ok cols => ("✅ Connected & Working", "Connected", cols.take 10)
      | .error e => ("❌ Error: " ++ e.take 50, "Connected", [])
    | none => ("⚠️ Available but not initialized", "Not Connected", [])
  { backend := "✅ Running"
    database := afterTry.1
    database_url := if urlSet then "✅ Set" else "❌ Not Set"
    database_name := if nameSet then "✅ Set" else "❌ Not Set"
    connection_status := afterTry.2.1
    collections := afterTry.2.2 }

/-! ### Lemmas about record operations -/

theorem Record.get?_set_self (r : Record) (k : String) (v : Value) :
    Record.get? (Record.set r k v) k = some v := by
  induction r with
  | nil => simp [Record.set, Record.get?]
  | cons p rest ih =>
    obtain ⟨k', v'⟩ := p
    by_cases h : k' = k
    · subst h; simp [Record.set, Record.get?]
    · simp [Record.set, Record.get?, h, ih]

theorem Record.get?_set_ne (r : Record) (k k2 : String) (v : Value)
    (h : k2 ≠ k) : Record.get? (Record.set r k v) k2 = Record.get? r k2 := by
  induction r with
  | nil => simp [Record.set, Record.get?, Ne.symm h]
  | cons p rest ih =>
    obtain ⟨k', v'⟩ := p
    by_cases hk : k' = k
    · subst hk
      simp [Record.set, Record.get?, Ne.symm h]
    · by_cases hk2 : k' = k2
      · subst hk2; simp [Record.set, Record.get?, hk]
      · simp [Record.set, Record.get?, hk, hk2, ih]

theorem Record.get?_erase_self (r : Record) (k : String) :
    Record.get? (Record.erase r k) k = none := by
  induction r with
  | nil => simp [Record.erase, Record.get?]
  | cons p rest ih =>
    obtain ⟨k', v'⟩ := p
    by_cases h : k' = k
    · subst h
      simpa [Record.erase, List.filter_cons] using ih
    · simp only [Record.erase, List.filter_cons] at ih ⊢
      simp [h, Record.get?, ih]

theorem Record.get?_erase_ne (r : Record) (k k2 : String) (h : k2 ≠ k) :
    Record.get? (Record.erase r k) k2 = Record.get? r k2 := by
  induction r with
  | nil => simp [Record.erase, Record.get?]
  | cons p rest ih =>
    obtain ⟨k', v'⟩ := p
    by_cases hk : k' = k
    · subst hk
      simp only [Record.erase, List.filter_cons] at ih ⊢
      simp [Record.get?, Ne.symm h, ih]
    · by_cases hk2 : k' = k2
      · subst hk2
        simp only [Record.erase, List.filter_cons] at ih ⊢
        simp [hk, Record.get?]
      · simp only [Record.erase, List.filter_cons] at ih ⊢
        simp [hk, hk2, Record.get?, ih]

theorem Record.ne_nil_of_get? {r : Record} {k : String} {v : Value}
    (h : Record.get? r k = some v) : r ≠ [] := by
  intro hr; subst hr; simp [Record.get?] at h

/-! ### Field-level behaviour of serialize_doc -/

theorem get?_serialize_doc_id {r : Record} {o : OId}
    (h : Record.get? r "_id" = some (.vOid o)) :
    Record.get? (serialize_doc r) "id" = some (.vStr (encodeOId o)) := by
  have hne : r.isEmpty = false := by
    cases r with
    | nil => simp [Record.get?] at h
    | cons p rest => rfl
  simp only [serialize_doc, hne, Bool.false_eq_true, if_false, h,
    Option.getD_some, oid_str]
  cases hs : Record.get? (Record.set (Record.erase r "_id") "id"
      (Value.vStr (encodeOId o))) "section_id" with
  | none => exact Record.get?_set_self ..
  | some v =>
    cases v with
    | vOid o2 =>
      rw [Record.get?_set_ne _ _ _ _ (by decide)]
      exact Record.get?_set_self ..
    | vNull => exact Record.get?_set_self ..
    | vStr s => exact Record.get?_set_self ..
    | vInt n => exact Record.get?_set_self ..
    | vArr xs => exact Record.get?_set_self ..

theorem get?_serialize_doc_id_none (r : Record) :
    Record.get? (serialize_doc r) "_id" = none := by
  cases r with
  | nil => simp [serialize_doc, Record.get?]
  | cons p rest =>
    simp only [serialize_doc, List.isEmpty_cons, Bool.false_eq_true, if_false]
    cases hs : Record.get? (Record.set (Record.erase (p :: rest) "_id") "id"
        (oid_str ((Record.get? (p :: rest) "_id").getD Value.vNull))) "section_id" with
    | none =>
      rw [Record.get?_set_ne _ _ _ _ (by decide)]
      exact Record.get?_erase_self ..
    | some v =>
      have base : Record.get? (Record.set (Record.erase (p :: rest) "_id") "id"
          (oid_str ((Record.get? (p :: rest) "_id").getD Value.vNull))) "_id" = none := by
        rw [Record.get?_set_ne _ _ _ _ (by decide)]
        exact Record.get?_erase_self ..
      cases v with
      | vOid o2 => rw [Record.get?_set_ne _ _ _ _ (by decide)]; exact base
      | vNull => exact base
      | vStr s => exact base
      | vInt n => exact base
      | vArr xs => exact base

theorem get?_serialize_doc_section_id {r : Record} {o2 : OId}
    (h : Record.get? r "section_id" = some (.vOid o2)) :
    Record.get? (serialize_doc r) "section_id" = some (.vStr (encodeOId o2)) := by
  have hne : r.isEmpty = false := by
    cases r with
    | nil => simp [Record.get?] at h
    | cons p rest => rfl
  have hmid : Record.get? (Record.set (Record.erase r "_id") "id"
      (oid_str ((Record.get? r "_id").getD Value.vNull))) "section_id" =
      some (.vOid o2) := by
    rw [Record.get?_set_ne _ _ _ _ (by decide),
      Record.get?_erase_ne _ _ _ (by decide)]
    exact h
  simp only [serialize_doc, hne, Bool.false_eq_true, if_false, hmid]
  exact Record.get?_set_self ..

theorem get?_serialize_doc_other (r : Record) (k : String)
    (h1 : k ≠ "_id") (h2 : k ≠ "id") (h3 : k ≠ "section_id") :
    Record.get? (serialize_doc r) k = Record.get? r k := by
  cases r with
  | nil => simp [serialize_doc]
  | cons p rest =>
    simp only [serialize_doc, List.isEmpty_cons, Bool.false_eq_true, if_false]
    have base : Record.get? (Record.set (Record.erase (p :: rest) "_id") "id"
        (oid_str ((Record.get? (p :: rest) "_id").getD Value.vNull))) k =
        Record.get? (p :: rest) k := by
      rw [Record.get?_set_ne _ _ _ _ h2, Record.get?_erase_ne _ _ _ h1]
    cases hs : Record.get? (Record.set (Record.erase (p :: rest) "_id") "id"
        (oid_str ((Record.get? (p :: rest) "_id").getD Value.vNull))) "section_id" with
    | none => exact base
    | some v =>
      cases v with
      | vOid o2 => rw [Record.get?_set_ne _ _ _ _ h3]; exact base
      | vNull => exact base
      | vStr s => exact base
      | vInt n => exact base
      | vArr xs => exact base

theorem orderKeyInt_serialize_doc (r : Record) :
    orderKeyInt (serialize_doc r) = orderKeyInt r := by
  unfold orderKeyInt
  rw [get?_serialize_doc_other r "order" (by decide) (by decide) (by decide)]

theorem okey_serialize_doc (r : Record) : okey (serialize_doc r) = okey r := by
  unfold okey
  rw [orderKeyInt_serialize_doc]

/-! ### Hex round trip for the identity codec -/

theorem hexVal_hexDigitChar : ∀ k, k < 16 → hexVal (hexDigitChar k) = k := by
  decide

theorem isHexChar_hexDigitChar : ∀ k, k < 16 → isHexChar (hexDigitChar k) = true := by
  decide

theorem parseHexBytes_byteHex {b : Nat} (hb : b < 256) (rest : List Char) :
    parseHexBytes (byteHex b ++ rest) = b :: parseHexBytes rest := by
  have h1 : b / 16 < 16 := by omega
  have h2 : b % 16 < 16 := by omega
  simp only [byteHex, List.cons_append, List.nil_append, parseHexBytes,
    hexVal_hexDigitChar _ h1, hexVal_hexDigitChar _ h2]
  have hb16 : b / 16 * 16 + b % 16 = b := by omega
  rw [hb16]
  rfl

theorem parseHexBytes_flatMap : ∀ (bs : List Nat), (∀ b ∈ bs, b < 256) →
    parseHexBytes (bs.flatMap byteHex) = bs := by
  intro bs
  induction bs with
  | nil => intro; rfl
  | cons b rest ih =>
    intro h
    rw [List.flatMap_cons, parseHexBytes_byteHex (h b (by simp)), ih]
    intro x hx
    exact h x (by simp [hx])

theorem length_flatMap_byteHex : ∀ (bs : List Nat),
    (bs.flatMap byteHex).length = 2 * bs.length := by
  intro bs
  induction bs with
  | nil => rfl
  | cons b rest ih =>
    rw [List.flatMap_cons, List.length_append, ih]
    simp [byteHex]
    omega

theorem all_isHexChar_flatMap : ∀ (bs : List Nat), (∀ b ∈ bs, b < 256) →
    (bs.flatMap byteHex).all isHexChar = true := by
  intro bs
  induction bs with
  | nil => intro; rfl
  | cons b rest ih =>
    intro h
    have hb : b < 256 := h b (by simp)
    rw [List.flatMap_cons, List.all_append]
    refine Bool.and_eq_true_iff.mpr ⟨?_, ih (fun x hx => h x (by simp [hx]))⟩
    simp only [byteHex, List.all_cons, List.all_nil, Bool.and_true]
    exact Bool.and_eq_true_iff.mpr
      ⟨isHexChar_hexDigitChar _ (by omega), isHexChar_hexDigitChar _ (by omega)⟩

theorem is_valid_encodeOId {o : OId} (hlen : o.bytes.length = 12)
    (hlt : ∀ b ∈ o.bytes, b < 256) : is_valid (encodeOId o) = true := by
  simp only [is_valid, encodeOId, Bool.and_eq_true, beq_iff_eq]
  constructor
  · show (o.bytes.flatMap byteHex).length = 24
    rw [length_flatMap_byteHex, hlen]
  · exact all_isHexChar_flatMap o.bytes hlt

theorem decodeOId_encodeOId {o : OId} (hlen : o.bytes.length = 12)
    (hlt : ∀ b ∈ o.bytes, b < 256) : decodeOId (encodeOId o) = some o := by
  rw [decodeOId, if_pos (is_valid_encodeOId hlen hlt)]
  show some ⟨parseHexBytes (o.bytes.flatMap byteHex)⟩ = some o
  rw [parseHexBytes_flatMap o.bytes hlt]

/-! ### Injectivity of the decimal rendering `Nat.repr` (used by the f-string
of the upload namer) -/

/-- Reference decimal digit list of a natural number, most significant digit
first. -/
def decDigits (n : Nat) : List Char :=
  if n < 10 then [Nat.digitChar n]
  else decDigits (n / 10) ++ [Nat.digitChar (n % 10)]
termination_by n
decreasing_by
  exact Nat.div_lt_self (by omega) (by omega)

theorem toDigitsCore_eq_decDigits :
    ∀ (fuel n : Nat) (ds : List Char), n < fuel →
      Nat.toDigitsCore 10 fuel n ds = decDigits n ++ ds := by
  intro fuel
  induction fuel with
  | zero => intro n ds h; omega
  | succ f ih =>
    intro n ds h
    by_cases h10 : n / 10 = 0
    · have hn : n < 10 := by omega
      simp only [Nat.toDigitsCore, h10, if_pos]
      rw [decDigits, if_pos hn, Nat.mod_eq_of_lt hn]
      rfl
    · have hn : ¬ n < 10 := by omega
      have hdec : decDigits n = decDigits (n / 10) ++ [Nat.digitChar (n % 10)] := by
        rw [decDigits, if_neg hn]
      have hdiv : n / 10 < n := Nat.div_lt_self (by omega) (by omega)
      simp only [Nat.toDigitsCore, h10, if_false, ite_false]
      rw [ih (n / 10) _ (by omega), hdec, List.append_assoc]
      rfl

theorem toDigits_eq_decDigits (n : Nat) : Nat.toDigits 10 n = decDigits n := by
  rw [Nat.toDigits, toDigitsCore_eq_decDigits (n + 1) n [] (Nat.lt_succ_self n),
    List.append_nil]

/-- Decimal value of a digit string, used to invert `decDigits`. -/
def decVal (l : List Char) : Nat :=
  l.foldl (fun a c => a * 10 + (c.toNat - 48)) 0

theorem digitChar_toNat : ∀ k, k < 10 → (Nat.digitChar k).toNat = 48 + k := by
  decide

theorem decVal_decDigits (n : Nat) : decVal (decDigits n) = n := by
  induction n using Nat.strong_induction_on with
  | _ n ih =>
    by_cases h : n < 10
    · rw [decDigits, if_pos h]
      simp [decVal, digitChar_toNat n h]
    · have hdiv : n / 10 < n := Nat.div_lt_self (by omega) (by omega)
      rw [decDigits, if_neg h]
      have hmod : n % 10 < 10 := by omega
      simp only [decVal, List.foldl_append, List.foldl_cons, List.foldl_nil]
      have ihv := ih (n / 10) hdiv
      simp only [decVal] at ihv
      rw [ihv, digitChar_toNat _ hmod]
      omega

theorem decDigits_injective {m n : Nat} (h : decDigits m = decDigits n) :
    m = n := by
  have := congrArg decVal h
  rwa [decVal_decDigits, decVal_decDigits] at this

theorem nat_repr_injective {m n : Nat} (h : Nat.repr m = Nat.repr n) :
    m = n := by
  have hd : (Nat.toDigits 10 m) = (Nat.toDigits 10 n) := by
    have := congrArg String.data h
    simpa [Nat.repr, List.asString] using this
  rw [toDigits_eq_decDigits, toDigits_eq_decDigits] at hd
  exact decDigits_injective hd

/-! ### Stability of the embedded sort -/

/-- A stable sort keeps every class of tied elements in input order: filtering
the sorted list by a predicate that only selects mutually tied elements gives
the filtered input unchanged. -/
theorem mergeSort_filter_tied {α : Type} (le : α → α → Bool)
    (trans : ∀ a b c, le a b → le b c → le a c)
    (total : ∀ a b, le a b || le b a)
    (l : List α) (p : α → Bool)
    (tied : ∀ a b, p a = true → p b = true → le a b = true) :
    (l.mergeSort le).filter p = l.filter p := by
  have hpair : (l.filter p).Pairwise (fun a b => le a b) :=
    List.pairwise_of_forall_mem_list fun a ha b hb =>
      tied a b (List.of_mem_filter ha) (List.of_mem_filter hb)
  have h1 : List.Sublist (l.filter p) (l.mergeSort le) :=
    List.sublist_mergeSort trans total hpair (List.filter_sublist l)
  have h2 : List.Sublist (l.filter p) ((l.mergeSort le).filter p) := by
    have h3 := h1.filter p
    simpa [List.filter_filter] using h3
  have h4 : ((l.mergeSort le).filter p).length = (l.filter p).length :=
    ((List.mergeSort_perm l le).filter p).length_eq
  exact (h2.eq_of_length h4.symm).symm

/-! ### Properties of splitext and the candidate names -/

theorem rfindIdx_ge (l : List Char) (c : Char) : -1 ≤ rfindIdx l c := by
  induction l with
  | nil => simp [rfindIdx]
  | cons x xs ih =>
    simp only [rfindIdx]
    split
    · omega
    · split <;> omega

theorem splitextL_concat (p : List Char) :
    (splitextL p).1 ++ (splitextL p).2 = p := by
  simp only [splitextL]
  split
  · exact List.take_append_drop _ p
  · exact List.append_nil p

theorem splitext_concat (f : String) : (splitext f).1 ++ (splitext f).2 = f := by
  apply String.ext
  rw [String.data_append]
  show (splitextL f.data).1 ++ (splitextL f.data).2 = f.data
  exact splitextL_concat f.data

theorem splitextL_base_head (p : List Char) :
    ((splitextL p).1).head? = p.head? := by
  simp only [splitextL]
  split
  · next h =>
    rw [Bool.and_eq_true] at h
    obtain ⟨hlt, hany⟩ := h
    rw [decide_eq_true_eq] at hlt
    have hsep := rfindIdx_ge p '/'
    have hslice : ((p.drop (rfindIdx p '/' + 1).toNat).take
        (rfindIdx p '.' - rfindIdx p '/' - 1).toNat) ≠ [] := by
      intro hnil
      rw [List.any_eq_true] at hany
      obtain ⟨x, hx, _⟩ := hany
      rw [hnil] at hx
      exact absurd hx (List.not_mem_nil x)
    have htoN : 1 ≤ (rfindIdx p '.' - rfindIdx p '/' - 1).toNat := by
      by_contra hzero
      have h0 : (rfindIdx p '.' - rfindIdx p '/' - 1).toNat = 0 := by omega
      rw [h0, List.take_zero] at hslice
      exact hslice rfl
    have hdot : 1 ≤ (rfindIdx p '.').toNat := by omega
    cases p with
    | nil => simp
    | cons a as =>
      obtain ⟨m, hm⟩ : ∃ m, (rfindIdx (a :: as) '.').toNat = m + 1 :=
        ⟨(rfindIdx (a :: as) '.').toNat - 1, by omega⟩
      rw [hm, List.take_succ_cons]
      rfl
  · rfl

theorem splitextL_base_nil_iff (p : List Char) :
    (splitextL p).1 = [] ↔ p = [] := by
  rw [← List.head?_eq_none_iff, ← List.head?_eq_none_iff, splitextL_base_head]

theorem decDigits_ne_nil (n : Nat) : decDigits n ≠ [] := by
  rw [decDigits]
  split
  · simp
  · simp

theorem repr_data (i : Nat) : (Nat.repr i).data = decDigits i := by
  show (List.asString (Nat.toDigits 10 i)).data = decDigits i
  rw [toDigits_eq_decDigits]
  rfl

theorem repr_length_pos (i : Nat) : 1 ≤ (Nat.repr i).length := by
  show 1 ≤ (Nat.repr i).data.length
  rw [repr_data]
  cases hd : decDigits i with
  | nil => exact absurd hd (decDigits_ne_nil i)
  | cons c cs => simp

theorem cand_zero (f b e : String) : cand f b e 0 = f := rfl

theorem cand_succ (f b e : String) {i : Nat} (h : i ≠ 0) :
    cand f b e i = b ++ "_" ++ Nat.repr i ++ e := by
  rw [cand, if_neg h]

theorem length_cand_succ (f : String) {i : Nat} (h : i ≠ 0) :
    f.length + 2 ≤ (cand f (splitext f).1 (splitext f).2 i).length := by
  have hconcat := congrArg (fun s => s.data.length) (splitext_concat f)
  simp only [String.data_append, List.length_append] at hconcat
  rw [cand_succ _ _ _ h]
  show f.data.length + 2 ≤
    ((splitext f).1 ++ "_" ++ Nat.repr i ++ (splitext f).2).data.length
  simp only [String.data_append, List.length_append]
  have hone : (['_'] : List Char).length = 1 := rfl
  have hr : 1 ≤ (Nat.repr i).data.length := repr_length_pos i
  omega

theorem cand_inj (f : String) {i j : Nat}
    (h : cand f (splitext f).1 (splitext f).2 i =
      cand f (splitext f).1 (splitext f).2 j) : i = j := by
  by_cases hi : i = 0
  · by_cases hj : j = 0
    · omega
    · exfalso
      have hlen := congrArg String.length h
      rw [hi, cand_zero] at hlen
      have := length_cand_succ f hj
      omega
  · by_cases hj : j = 0
    · exfalso
      have hlen := congrArg String.length h
      rw [hj, cand_zero] at hlen
      have := length_cand_succ f hi
      omega
    · rw [cand_succ _ _ _ hi, cand_succ _ _ _ hj] at h
      have hd := congrArg String.data h
      simp only [String.data_append] at hd
      have h1 := List.append_cancel_right hd
      have h2 := List.append_cancel_left h1
      have h3 : Nat.repr i = Nat.repr j := String.ext h2
      exact nat_repr_injective h3

theorem startsWithSep_cand (f : String) (i : Nat) :
    startsWithSep (cand f (splitext f).1 (splitext f).2 i) = startsWithSep f := by
  by_cases hi : i = 0
  · rw [hi, cand_zero]
  · rw [cand_succ _ _ _ hi]
    simp only [startsWithSep, String.data_append]
    rw [List.head?_append, List.head?_append, List.head?_append]
    have hdata : ((splitext f).1).data = (splitextL f.data).1 := rfl
    have hb := splitextL_base_head f.data
    cases hb1 : (splitextL f.data).1.head? with
    | none =>
      rw [hb1] at hb
      rw [hdata, hb1, ← hb]
      rfl
    | some c =>
      rw [hb1] at hb
      rw [hdata, hb1, ← hb]
      rfl

theorem pjoin_cand_inj (f : String) {i j : Nat} (h : i ≠ j) :
    pjoin UPLOAD_DIR (cand f (splitext f).1 (splitext f).2 i) ≠
      pjoin UPLOAD_DIR (cand f (splitext f).1 (splitext f).2 j) := by
  have hc : cand f (splitext f).1 (splitext f).2 i ≠
      cand f (splitext f).1 (splitext f).2 j :=
    fun he => h (cand_inj f he)
  unfold pjoin
  rw [startsWithSep_cand, startsWithSep_cand]
  cases hs : startsWithSep f with
  | true => simpa using hc
  | false =>
    simp only [Bool.false_eq_true, if_false]
    intro he
    apply hc
    apply String.ext
    have := congrArg String.data he
    simp only [String.data_append] at this
    exact List.append_cancel_left this

/-- Pigeonhole: among the first `existing.length + 1` candidate names, some
joined path is not among the existing paths. -/
theorem exists_free_cand (existing : List String) (f : String) :
    ∃ k, k ≤ existing.length ∧
      existing.contains
        (pjoin UPLOAD_DIR (cand f (splitext f).1 (splitext f).2 k)) = false := by
  by_contra hco
  push_neg at hco
  have hall : ∀ k, k ≤ existing.length →
      pjoin UPLOAD_DIR (cand f (splitext f).1 (splitext f).2 k) ∈ existing := by
    intro k hk
    have := hco k hk
    rcases hb : existing.contains
        (pjoin UPLOAD_DIR (cand f (splitext f).1 (splitext f).2 k)) with _ | _
    · exact absurd hb this
    · simpa using hb
  set g : Nat → String :=
    fun k => pjoin UPLOAD_DIR (cand f (splitext f).1 (splitext f).2 k) with hg
  have hnodup : (List.map g (List.range (existing.length + 1))).Nodup := by
    refine List.Nodup.map_on ?_ (List.nodup_range _)
    intro x _ y _ hxy
    by_contra hne
    exact pjoin_cand_inj f hne hxy
  have hsub : (List.map g (List.range (existing.length + 1))).toFinset ⊆
      existing.toFinset := by
    intro x hx
    rw [List.mem_toFinset] at hx ⊢
    obtain ⟨k, hk, rfl⟩ := List.mem_map.mp hx
    exact hall k (by simpa using Nat.lt_succ_iff.mp (List.mem_range.mp hk))
  have hcard1 : (List.map g (List.range (existing.length + 1))).toFinset.card =
      existing.length + 1 := by
    rw [List.toFinset_card_of_nodup hnodup, List.length_map, List.length_range]
  have hcard2 : existing.toFinset.card ≤ existing.length :=
    existing.toFinset_card_le
  have := Finset.card_le_card hsub
  omega

/-- What the probing loop computes: started at index `j + 1` holding the
candidate of index `j`, with some free candidate within `fuel` steps, it
returns the first free candidate at or after `j`. -/
theorem nameLoop_spec (existing : List String) (f : String) :
    ∀ (fuel j : Nat),
      (∃ k, k < fuel ∧ existing.contains
        (pjoin UPLOAD_DIR (cand f (splitext f).1 (splitext f).2 (j + k))) = false) →
      ∃ k, k < fuel ∧
        (∀ m, m < k → existing.contains
          (pjoin UPLOAD_DIR (cand f (splitext f).1 (splitext f).2 (j + m))) = true) ∧
        existing.contains
          (pjoin UPLOAD_DIR (cand f (splitext f).1 (splitext f).2 (j + k))) = false ∧
        nameLoop existing (splitext f).1 (splitext f).2 fuel (j + 1)
          (cand f (splitext f).1 (splitext f).2 j) =
          cand f (splitext f).1 (splitext f).2 (j + k) := by
  intro fuel
  induction fuel with
  | zero =>
    intro j h
    obtain ⟨k, hk, _⟩ := h
    omega
  | succ fl ih =>
    intro j h
    cases hc : existing.contains
        (pjoin UPLOAD_DIR (cand f (splitext f).1 (splitext f).2 j)) with
    | false =>
      refine ⟨0, by omega, by omega, by simpa using hc, ?_⟩
      show (if existing.contains
          (pjoin UPLOAD_DIR (cand f (splitext f).1 (splitext f).2 j)) = true
        then _ else _) = _
      rw [hc]
      simp
    | true =>
      obtain ⟨k0, hk0, hfree0⟩ := h
      have hk0ne : k0 ≠ 0 := by
        intro h0
        rw [h0, Nat.add_zero] at hfree0
        rw [hc] at hfree0
        exact Bool.true_eq_false.mp hfree0
      have hnext : ∃ k, k < fl ∧ existing.contains
          (pjoin UPLOAD_DIR
            (cand f (splitext f).1 (splitext f).2 (j + 1 + k))) = false := by
        refine ⟨k0 - 1, by omega, ?_⟩
        have : j + 1 + (k0 - 1) = j + k0 := by omega
        rw [this]
        exact hfree0
      obtain ⟨k1, hk1, hmins, hfree1, hloop⟩ := ih (j + 1) hnext
      refine ⟨k1 + 1, by omega, ?_, ?_, ?_⟩
      · intro m hm
        cases m with
        | zero => simpa using hc
        | succ m' =>
          have hmm : j + (m' + 1) = j + 1 + m' := by omega
          rw [hmm]
          exact hmins m' (by omega)
      · have : j + (k1 + 1) = j + 1 + k1 := by omega
        rw [this]
        exact hfree1
      · show (if existing.contains
            (pjoin UPLOAD_DIR (cand f (splitext f).1 (splitext f).2 j)) = true
          then _ else _) = _
        rw [hc]
        simp only [if_pos]
        have hcand : (splitext f).1 ++ "_" ++ Nat.repr (j + 1) ++ (splitext f).2 =
            cand f (splitext f).1 (splitext f).2 (j + 1) := by
          rw [cand_succ _ _ _ (by omega)]
        have hidx : j + (k1 + 1) = j + 1 + k1 := by omega
        rw [hidx, ← hloop, hcand]

/-- The name chosen by `upload_name` is the first candidate whose joined path
does not yet exist. -/
theorem upload_name_spec (existing : List String) (f : String) :
    ∃ k,
      (∀ m, m < k → existing.contains
        (pjoin UPLOAD_DIR (cand f (splitext f).1 (splitext f).2 m)) = true) ∧
      existing.contains
        (pjoin UPLOAD_DIR (cand f (splitext f).1 (splitext f).2 k)) = false ∧
      upload_name existing f = cand f (splitext f).1 (splitext f).2 k := by
  obtain ⟨k0, hk0, hfree⟩ := exists_free_cand existing f
  have hex : ∃ k, k < existing.length + 1 ∧ existing.contains
      (pjoin UPLOAD_DIR (cand f (splitext f).1 (splitext f).2 (0 + k))) = false := by
    refine ⟨k0, by omega, ?_⟩
    rw [Nat.zero_add]
    exact hfree
  obtain ⟨k, hk, hmins, hfreek, hloop⟩ := nameLoop_spec existing f (existing.length + 1) 0 hex
  rw [Nat.zero_add] at hfreek hloop
  refine ⟨k, ?_, hfreek, ?_⟩
  · intro m hm
    have := hmins m hm
    rwa [Nat.zero_add] at this
  · show nameLoop existing (splitext f).1 (splitext f).2 (existing.length + 1) 1 f =
      cand f (splitext f).1 (splitext f).2 k
    have hzk : 0 + k = k := Nat.zero_add k
    rw [hzk] at hloop
    exact hloop

/-! ### Helper facts for the repository operations -/

theorem okeyLe_trans : ∀ a b c : Record, okeyLe a b → okeyLe b c → okeyLe a c := by
  intro a b c hab hbc
  simp only [okeyLe, decide_eq_true_eq] at hab hbc ⊢
  omega

theorem okeyLe_total : ∀ a b : Record, okeyLe a b || okeyLe b a := by
  intro a b
  simp only [okeyLe]
  rcases Int.le_total (okey a) (okey b) with h | h
  · simp [h]
  · simp [h]

theorem findDocs_single (db : DB) (k : String) (v : Value) :
    findDocs db [(k, v)] = db.docs.filter (fun r => Record.get? r k == some v) := by
  unfold findDocs
  apply List.filter_congr
  intro r _
  simp [List.all_cons]

theorem findDocs_nil (db : DB) : findDocs db [] = db.docs := by
  unfold findDocs
  simp [List.all_nil]

theorem is_valid_ne_empty {s : String} (h : is_valid s = true) : s ≠ "" := by
  intro he
  subst he
  simp [is_valid] at h

/-! ### Claim C1 -/

/-- C1, counterexample: validation does not reject the empty title.  A
Section payload whose `title` is the empty string passes pydantic validation
(the schema requires only `title: str`, with no non-empty constraint), and
`create_section` persists the empty-titled section. -/
theorem C1_counterexample :
    validateSection [("title", Value.vStr "")] = .ok ⟨"", none, none⟩ ∧
    (create_section ⟨[], []⟩ ⟨[0,0,0,0,0,0,0,0,0,0,0,0]⟩
        [("title", Value.vStr "")]).2 = .ok "000000000000000000000000" ∧
    (create_section ⟨[], []⟩ ⟨[0,0,0,0,0,0,0,0,0,0,0,0]⟩
        [("title", Value.vStr "")]).1.sections =
      [[("_id", Value.vOid ⟨[0,0,0,0,0,0,0,0,0,0,0,0]⟩), ("title", Value.vStr ""),
        ("description", Value.vNull), ("order", Value.vNull)]] :=
  ⟨rfl, rfl, rfl⟩

/-- C1, amended: a Section title is required to be present and to be a
string, but it may be empty — a payload missing `title` is rejected with
"title: Field required", while a payload whose `title` is any string,
including the empty string, passes validation of the title field. -/
theorem C1_title_required_but_may_be_empty :
    (∀ r : Record, Record.get? r "title" = none →
      ∃ es, validateSection r = .error es ∧ "title: Field required" ∈ es) ∧
    (∀ t : String, validateSection [("title", Value.vStr t)] = .ok ⟨t, none, none⟩) := by
  constructor
  · intro r h
    simp only [validateSection, h]
    refine ⟨_, rfl, ?_⟩
    simp [fieldErrors]
  · intro t
    rfl

/-- C1, witness for the amended theorem at a concrete input: the empty
payload is rejected for the missing title. -/
theorem C1_title_required_witness :
    ∃ es, validateSection [] = .error es ∧ "title: Field required" ∈ es :=
  C1_title_required_but_may_be_empty.1 [] rfl

/-! ### Claim C4 -/

/-- C4: a Doc payload whose `section_id` does not decode to an identity, or
decodes to an identity no stored Section carries, makes `create_doc` fail
with the client error 400 "Section not found", and the store is returned
unchanged — the insert never runs. -/
theorem C4_create_doc_bad_reference :
    ∀ (db : DB) (newId : OId) (p : Doc),
      decodeOId p.section_id = none ∨ findSection db (parseOId p.section_id) = none →
      create_doc db newId p = (db, .error ⟨400, "Section not found"⟩) := by
  intro db z p h
  have hsec : (if is_valid p.section_id then findSection db (parseOId p.section_id)
      else none) = none := by
    rcases h with h | h
    · have hv : is_valid p.section_id = false := by
        by_contra hv
        rw [Bool.not_eq_false] at hv
        rw [decodeOId, if_pos hv] at h
        exact Option.noConfusion h
      rw [hv]
      simp
    · cases hv : is_valid p.section_id
      · simp
      · simpa using h
  simp only [create_doc, hsec]
  rfl

/-- C4, witness: a payload naming a malformed identity is rejected and the
store keeps its single empty docs collection. -/
theorem C4_witness :
    create_doc ⟨[], []⟩ ⟨[0,0,0,0,0,0,0,0,0,0,0,1]⟩ ⟨"not-an-id", "T", "", none, none⟩ =
      (⟨[], []⟩, .error ⟨400, "Section not found"⟩) :=
  C4_create_doc_bad_reference ⟨[], []⟩ ⟨[0,0,0,0,0,0,0,0,0,0,0,1]⟩
    ⟨"not-an-id", "T", "", none, none⟩ (Or.inl rfl)

/-! ### Claim C5 -/

/-- C5: with a well-formed identity filter, `list_docs` returns exactly the
serializations of the stored Docs whose `section_id` equals that identity;
with a malformed (or empty) filter string the filter is silently dropped and
every stored Doc is returned. -/
theorem C5_list_docs_filter :
    ∀ (db : DB) (S : String),
      (is_valid S = true →
        list_docs db (some S) =
          (db.docs.filter
            (fun r => Record.get? r "section_id" == some (.vOid (parseOId S)))).map
            serialize_doc) ∧
      (is_valid S = false → list_docs db (some S) = db.docs.map serialize_doc) := by
  intro db S
  constructor
  · intro hv
    have hne : S ≠ "" := is_valid_ne_empty hv
    have hcond : (S != "" && is_valid S) = true := by
      rw [hv]
      simpa [bne_iff_ne] using hne
    simp only [list_docs, hcond, if_true]
    rw [findDocs_single]
  · intro hv
    have hcond : (S != "" && is_valid S) = false := by
      rw [hv]
      simp
    simp only [list_docs, hcond, Bool.false_eq_true, if_false]
    rw [findDocs_nil]

/-- C5, witness: the two branches at concrete stores — a valid filter keeps
only the matching Doc, an invalid filter returns everything. -/
theorem C5_witness :
    list_docs ⟨[], [[("_id", Value.vOid ⟨[0,0,0,0,0,0,0,0,0,0,0,7]⟩)]]⟩
        (some "nope") =
      (⟨[], [[("_id", Value.vOid ⟨[0,0,0,0,0,0,0,0,0,0,0,7]⟩)]]⟩ : DB).docs.map
        serialize_doc :=
  (C5_list_docs_filter _ "nope").2 (by decide)

/-! ### Claim C8 -/

/-- C8: identity codec round trip — decoding the canonical encoding of a
store-generated 12-byte identity returns an equal identity, and the decoder
is total on arbitrary strings, succeeding exactly on well-formed identity
text and reporting invalid otherwise (never an exception). -/
theorem C8_identity_codec_round_trip :
    (∀ o : OId, o.bytes.length = 12 → (∀ b ∈ o.bytes, b < 256) →
      decodeOId (encodeOId o) = some o) ∧
    (∀ s : String, (decodeOId s).isSome = is_valid s) := by
  constructor
  · intro o h1 h2
    exact decodeOId_encodeOId h1 h2
  · intro s
    unfold decodeOId
    cases hv : is_valid s
    · simp
    · simp

/-- C8, witness: a concrete 12-byte identity survives the round trip, and a
concrete malformed string decodes to invalid. -/
theorem C8_witness :
    decodeOId (encodeOId ⟨[0,1,2,3,4,5,6,7,8,9,10,255]⟩) =
      some ⟨[0,1,2,3,4,5,6,7,8,9,10,255]⟩ :=
  C8_identity_codec_round_trip.1 ⟨[0,1,2,3,4,5,6,7,8,9,10,255]⟩ (by decide) (by decide)

/-! ### Claim C9 -/

/-- C9: the `/test` health endpoint cannot fail — for every state of the
store handle and environment it returns a response whose `backend` field says
running, and an exception raised by the store interaction is reported inline
in the `database` field (truncated to 50 characters) instead of propagating. -/
theorem C9_test_endpoint_never_fails :
    ∀ (db : Option DBConn) (urlSet nameSet : Bool),
      (test_database db urlSet nameSet).backend = "✅ Running" ∧
      (∀ c e, db = some c → c.collectionNames = .error e →
        (test_database db urlSet nameSet).database = "❌ Error: " ++ e.take 50) := by
  intro db u n
  constructor
  · rfl
  · intro c e hdb herr
    subst hdb
    simp only [test_database, herr]

/-- C9, witness: a store whose collection listing raises is reported inline. -/
theorem C9_witness :
    (test_database (some ⟨"docsos", .error "boom"⟩) true false).database =
      "❌ Error: " ++ ("boom").take 50 :=
  (C9_test_endpoint_never_fails (some ⟨"docsos", .error "boom"⟩) true false).2
    ⟨"docsos", .error "boom"⟩ "boom" rfl rfl

/-! ### Claim C2 -/

/-- C2, counterexample: a stored null `order` is not treated as 0.  With two
stored sections whose `order` field is null, `x.get("order", 0)` yields
`None` for both, the sort comparison raises `TypeError` (surfaced by the
route as HTTP 500), and no sorted sequence is returned at all. -/
theorem C2_counterexample :
    list_sections [[("order", Value.vNull)], [("order", Value.vNull)]] =
      .error "TypeError: unsupported comparison with NoneType" := rfl

/-- C2, amended: when every stored section carries an integer `order` or no
`order` field at all (absent treated as 0) — null excluded — `list_sections`
succeeds and returns the serialized records sorted non-decreasing by the
order key, tied records keeping the store-native retrieval order, and the
output a permutation of the serialized store. -/
theorem C2_sections_sorted (items : List Record)
    (hall : ∀ r ∈ items, (orderKeyInt r).isSome = true) :
    ∃ out, list_sections items = .ok out ∧
      out.Pairwise (fun a b => okey a ≤ okey b) ∧
      (∀ k : Int, out.filter (fun r => okey r == k) =
        (items.filter (fun r => okey r == k)).map serialize_doc) ∧
      out.Perm (items.map serialize_doc) := by
  have hany : (items.any fun r => (orderKeyInt r).isNone) = false := by
    rw [List.any_eq_false]
    intro r hr
    have h2 := hall r hr
    cases horder : orderKeyInt r with
    | none => rw [horder] at h2; simp at h2
    | some v => simp [horder]
  refine ⟨(items.mergeSort okeyLe).map serialize_doc, ?_, ?_, ?_, ?_⟩
  · simp [list_sections, hany]
  · have hs := List.sorted_mergeSort okeyLe_trans okeyLe_total items
    refine List.Pairwise.map serialize_doc ?_ hs
    intro a b hab
    rw [okey_serialize_doc, okey_serialize_doc]
    simpa [okeyLe] using hab
  · intro k
    rw [List.filter_map]
    have hp : ((fun r => okey r == k) ∘ serialize_doc) = (fun r => okey r == k) := by
      funext r
      simp [Function.comp, okey_serialize_doc]
    rw [hp]
    rw [mergeSort_filter_tied okeyLe okeyLe_trans okeyLe_total items
      (fun r => okey r == k) ?_]
    intro a b ha hb
    simp only [beq_iff_eq] at ha hb
    simp [okeyLe, ha, hb]
  · exact (List.mergeSort_perm items okeyLe).map serialize_doc

/-- C2, witness: the amended theorem at a concrete two-section store with
integer orders. -/
theorem C2_witness :
    ∃ out, list_sections [[("order", Value.vInt 2)], [("order", Value.vInt 1)]] =
        .ok out ∧
      out.Pairwise (fun a b => okey a ≤ okey b) ∧
      (∀ k : Int, out.filter (fun r => okey r == k) =
        (([[("order", Value.vInt 2)], [("order", Value.vInt 1)]] :
          List Record).filter (fun r => okey r == k)).map serialize_doc) ∧
      out.Perm (([[("order", Value.vInt 2)], [("order", Value.vInt 1)]] :
        List Record).map serialize_doc) :=
  C2_sections_sorted [[("order", Value.vInt 2)], [("order", Value.vInt 1)]] (by decide)

/-! ### Claim C3 -/

/-- C3, counterexample: the supplied `section_id` text is not always
reproduced character for character.  With a stored section of id
`…00a`, a Doc payload naming it by the uppercase spelling `…00A` is accepted
(ObjectId comparison is by value), but the record later returned by
`list_docs` carries the canonical lowercase text, which differs from the
supplied string. -/
theorem C3_counterexample :
    (create_doc
        ⟨[[("_id", Value.vOid ⟨[0,0,0,0,0,0,0,0,0,0,0,10]⟩), ("title", Value.vStr "S")]], []⟩
        ⟨[0,0,0,0,0,0,0,0,0,0,0,11]⟩
        ⟨"00000000000000000000000A", "T", "C", none, none⟩).2.isOk = true ∧
    ∀ r ∈ list_docs (create_doc
        ⟨[[("_id", Value.vOid ⟨[0,0,0,0,0,0,0,0,0,0,0,10]⟩), ("title", Value.vStr "S")]], []⟩
        ⟨[0,0,0,0,0,0,0,0,0,0,0,11]⟩
        ⟨"00000000000000000000000A", "T", "C", none, none⟩).1 none,
      Record.get? r "section_id" ≠ some (Value.vStr "00000000000000000000000A") := by
  constructor
  · decide
  · decide

/-- C3, amended: for a payload whose `section_id` is a well-formed identity
in canonical (lowercase) spelling referencing an existing section,
`create_doc` succeeds and the unfiltered `list_docs` afterwards contains a
record with the same `title`, `content`, `tags` and `cover_image`, and a
`section_id` textually equal to the supplied string.  (For a non-canonical
spelling the stored reference is the same identity but the returned text is
its lowercase canonical form.) -/
theorem C3_create_doc_roundtrip (db : DB) (z : OId) (p : Doc)
    (hv : is_valid p.section_id = true)
    (hs : ∃ s, findSection db (parseOId p.section_id) = some s ∧ s ≠ [])
    (hcanon : encodeOId (parseOId p.section_id) = p.section_id) :
    (create_doc db z p).2 = .ok (encodeOId z) ∧
    ∃ r, r ∈ list_docs (create_doc db z p).1 none ∧
      Record.get? r "title" = some (.vStr p.title) ∧
      Record.get? r "content" = some (.vStr p.content) ∧
      Record.get? r "tags" = some (optArr p.tags) ∧
      Record.get? r "cover_image" = some (optStr p.cover_image) ∧
      Record.get? r "section_id" = some (.vStr p.section_id) := by
  obtain ⟨s, hfind, hsne⟩ := hs
  have hsec : (if is_valid p.section_id then findSection db (parseOId p.section_id)
      else none) = some s := by
    rw [hv]
    simpa using hfind
  have hfalsy : pyFalsy (some s) = false := by
    cases s with
    | nil => exact absurd rfl hsne
    | cons a l => rfl
  have hcd : create_doc db z p =
      ({ db with docs := db.docs ++
          [("_id", .vOid z) ::
            Record.set (Doc.dump p) "section_id" (.vOid (parseOId p.section_id))] },
        .ok (encodeOId z)) := by
    simp only [create_doc, hsec, hfalsy, Bool.false_eq_true, if_false]
  have hstored_title : Record.get? (("_id", Value.vOid z) ::
      Record.set (Doc.dump p) "section_id" (.vOid (parseOId p.section_id))) "title" =
      some (.vStr p.title) := by
    show Record.get? (Record.set (Doc.dump p) "section_id"
      (.vOid (parseOId p.section_id))) "title" = some (.vStr p.title)
    rw [Record.get?_set_ne _ _ _ _ (by decide)]
    rfl
  have hstored_content : Record.get? (("_id", Value.vOid z) ::
      Record.set (Doc.dump p) "section_id" (.vOid (parseOId p.section_id))) "content" =
      some (.vStr p.content) := by
    show Record.get? (Record.set (Doc.dump p) "section_id"
      (.vOid (parseOId p.section_id))) "content" = some (.vStr p.content)
    rw [Record.get?_set_ne _ _ _ _ (by decide)]
    rfl
  have hstored_tags : Record.get? (("_id", Value.vOid z) ::
      Record.set (Doc.dump p) "section_id" (.vOid (parseOId p.section_id))) "tags" =
      some (optArr p.tags) := by
    show Record.get? (Record.set (Doc.dump p) "section_id"
      (.vOid (parseOId p.section_id))) "tags" = some (optArr p.tags)
    rw [Record.get?_set_ne _ _ _ _ (by decide)]
    rfl
  have hstored_cover : Record.get? (("_id", Value.vOid z) ::
      Record.set (Doc.dump p) "section_id" (.vOid (parseOId p.section_id))) "cover_image" =
      some (optStr p.cover_image) := by
    show Record.get? (Record.set (Doc.dump p) "section_id"
      (.vOid (parseOId p.section_id))) "cover_image" = some (optStr p.cover_image)
    rw [Record.get?_set_ne _ _ _ _ (by decide)]
    rfl
  have hstored_sid : Record.get? (("_id", Value.vOid z) ::
      Record.set (Doc.dump p) "section_id" (.vOid (parseOId p.section_id))) "section_id" =
      some (.vOid (parseOId p.section_id)) := by
    show Record.get? (Record.set (Doc.dump p) "section_id"
      (.vOid (parseOId p.section_id))) "section_id" =
      some (.vOid (parseOId p.section_id))
    exact Record.get?_set_self ..
  constructor
  · rw [hcd]
  · refine ⟨serialize_doc (("_id", Value.vOid z) ::
      Record.set (Doc.dump p) "section_id" (.vOid (parseOId p.section_id))),
      ?_, ?_, ?_, ?_, ?_, ?_⟩
    · rw [hcd]
      simp only [list_docs]
      rw [findDocs_nil]
      exact List.mem_map_of_mem _ (by simp)
    · rw [get?_serialize_doc_other _ _ (by decide) (by decide) (by decide)]
      exact hstored_title
    · rw [get?_serialize_doc_other _ _ (by decide) (by decide) (by decide)]
      exact hstored_content
    · rw [get?_serialize_doc_other _ _ (by decide) (by decide) (by decide)]
      exact hstored_tags
    · rw [get?_serialize_doc_other _ _ (by decide) (by decide) (by decide)]
      exact hstored_cover
    · rw [get?_serialize_doc_section_id hstored_sid, hcanon]

/-- C3, witness: the amended theorem at a concrete store and payload with a
canonical lowercase section id. -/
theorem C3_witness :
    (create_doc
        ⟨[[("_id", Value.vOid ⟨[0,0,0,0,0,0,0,0,0,0,0,10]⟩), ("title", Value.vStr "S")]], []⟩
        ⟨[0,0,0,0,0,0,0,0,0,0,0,11]⟩
        ⟨"00000000000000000000000a", "T", "C", none, none⟩).2 =
      .ok (encodeOId ⟨[0,0,0,0,0,0,0,0,0,0,0,11]⟩) ∧
    ∃ r, r ∈ list_docs (create_doc
        ⟨[[("_id", Value.vOid ⟨[0,0,0,0,0,0,0,0,0,0,0,10]⟩), ("title", Value.vStr "S")]], []⟩
        ⟨[0,0,0,0,0,0,0,0,0,0,0,11]⟩
        ⟨"00000000000000000000000a", "T", "C", none, none⟩).1 none ∧
      Record.get? r "title" = some (.vStr "T") ∧
      Record.get? r "content" = some (.vStr "C") ∧
      Record.get? r "tags" = some (optArr none) ∧
      Record.get? r "cover_image" = some (optStr none) ∧
      Record.get? r "section_id" = some (.vStr "00000000000000000000000a") :=
  C3_create_doc_roundtrip
    ⟨[[("_id", Value.vOid ⟨[0,0,0,0,0,0,0,0,0,0,0,10]⟩), ("title", Value.vStr "S")]], []⟩
    ⟨[0,0,0,0,0,0,0,0,0,0,0,11]⟩
    ⟨"00000000000000000000000a", "T", "C", none, none⟩
    (by decide) ⟨_, rfl, by decide⟩ (by decide)

/-! ### Claim C6 -/

/-- C6: sequential uploads never overwrite — the chosen stored path is never
one that already exists; and concretely, uploading `x.png` while
`uploads/x.png` exists (and `x_1.png` does not) stores `x_1.png`, while a
third upload with both taken stores `x_2.png`. -/
theorem C6_upload_never_overwrites :
    ∀ (existing : List String) (f : String),
      existing.contains (pjoin UPLOAD_DIR (upload_name existing f)) = false ∧
      (existing.contains "uploads/x.png" = true →
        existing.contains "uploads/x_1.png" = false →
        upload_name existing "x.png" = "x_1.png") ∧
      (existing.contains "uploads/x.png" = true →
        existing.contains "uploads/x_1.png" = true →
        existing.contains "uploads/x_2.png" = false →
        upload_name existing "x.png" = "x_2.png") := by
  intro existing f
  refine ⟨?_, ?_, ?_⟩
  · obtain ⟨k, hmin, hfree, hname⟩ := upload_name_spec existing f
    rw [hname]
    exact hfree
  · intro h0 h1
    obtain ⟨k, hmin, hfree, hname⟩ := upload_name_spec existing "x.png"
    have hc0 : pjoin UPLOAD_DIR
        (cand "x.png" (splitext "x.png").1 (splitext "x.png").2 0) =
        "uploads/x.png" := by decide
    have hc1 : pjoin UPLOAD_DIR
        (cand "x.png" (splitext "x.png").1 (splitext "x.png").2 1) =
        "uploads/x_1.png" := by decide
    have hcand1 : cand "x.png" (splitext "x.png").1 (splitext "x.png").2 1 =
        "x_1.png" := by decide
    have hk0 : k ≠ 0 := by
      intro he
      rw [he, hc0] at hfree
      rw [hfree] at h0
      exact Bool.noConfusion h0
    have hk2 : k < 2 := by
      by_contra hge
      have hm := hmin 1 (by omega)
      rw [hc1] at hm
      rw [h1] at hm
      exact Bool.noConfusion hm
    have hk : k = 1 := by omega
    rw [hk, hcand1] at hname
    exact hname
  · intro h0 h1 h2
    obtain ⟨k, hmin, hfree, hname⟩ := upload_name_spec existing "x.png"
    have hc0 : pjoin UPLOAD_DIR
        (cand "x.png" (splitext "x.png").1 (splitext "x.png").2 0) =
        "uploads/x.png" := by decide
    have hc1 : pjoin UPLOAD_DIR
        (cand "x.png" (splitext "x.png").1 (splitext "x.png").2 1) =
        "uploads/x_1.png" := by decide
    have hc2 : pjoin UPLOAD_DIR
        (cand "x.png" (splitext "x.png").1 (splitext "x.png").2 2) =
        "uploads/x_2.png" := by decide
    have hcand2 : cand "x.png" (splitext "x.png").1 (splitext "x.png").2 2 =
        "x_2.png" := by decide
    have hk0 : k ≠ 0 := by
      intro he
      rw [he, hc0] at hfree
      rw [hfree] at h0
      exact Bool.noConfusion h0
    have hk1 : k ≠ 1 := by
      intro he
      rw [he, hc1] at hfree
      rw [hfree] at h1
      exact Bool.noConfusion h1
    have hk3 : k < 3 := by
      by_contra hge
      have hm := hmin 2 (by omega)
      rw [hc2] at hm
      rw [h2] at hm
      exact Bool.noConfusion hm
    have hk : k = 2 := by omega
    rw [hk, hcand2] at hname
    exact hname

/-- C6, witness: the concrete second and third uploads of `x.png`. -/
theorem C6_witness :
    upload_name ["uploads/x.png"] "x.png" = "x_1.png" ∧
    upload_name ["uploads/x.png", "uploads/x_1.png"] "x.png" = "x_2.png" :=
  ⟨(C6_upload_never_overwrites ["uploads/x.png"] "x.png").2.1
      (by decide) (by decide),
   (C6_upload_never_overwrites ["uploads/x.png", "uploads/x_1.png"] "x.png").2.2
      (by decide) (by decide) (by decide)⟩

/-! ### Claim C7 -/

/-- C7: the suffix-probing loop of the upload namer terminates for every
finite existing file set and every requested filename — some suffix index
yields a name whose path is unused, every smaller index is in use, and the
loop result is exactly that first free candidate. -/
theorem C7_upload_loop_terminates :
    ∀ (existing : List String) (f : String),
      ∃ i, existing.contains
          (pjoin UPLOAD_DIR (cand f (splitext f).1 (splitext f).2 i)) = false ∧
        (∀ j, j < i → existing.contains
          (pjoin UPLOAD_DIR (cand f (splitext f).1 (splitext f).2 j)) = true) ∧
        upload_name existing f = cand f (splitext f).1 (splitext f).2 i := by
  intro existing f
  obtain ⟨k, hmin, hfree, hname⟩ := upload_name_spec existing f
  exact ⟨k, hfree, hmin, hname⟩

/-- C7, witness: the loop theorem instantiated at a concrete file set. -/
theorem C7_witness :
    ∃ i, (["uploads/a.txt"] : List String).contains
        (pjoin UPLOAD_DIR (cand "a.txt" (splitext "a.txt").1 (splitext "a.txt").2 i)) =
          false ∧
      (∀ j, j < i → (["uploads/a.txt"] : List String).contains
        (pjoin UPLOAD_DIR (cand "a.txt" (splitext "a.txt").1 (splitext "a.txt").2 j)) =
          true) ∧
      upload_name ["uploads/a.txt"] "a.txt" =
        cand "a.txt" (splitext "a.txt").1 (splitext "a.txt").2 i :=
  C7_upload_loop_terminates ["uploads/a.txt"] "a.txt"

/-! ### Claim C10 -/

/-- C10: every record produced by the listing operations is the
serialization of a stored record, and serialization moves the internal `_id`
to a textual `id`, leaves no `_id` behind, rewrites an internal-identity
`section_id` to its text form, and carries every other field through
unchanged. -/
theorem C10_serialization_invariant :
    (∀ (db : DB) (q : Option String) (r2 : Record), r2 ∈ list_docs db q →
      ∃ rs, rs ∈ db.docs ∧ r2 = serialize_doc rs) ∧
    (∀ (items : List Record) (out : List Record) (r2 : Record),
      list_sections items = .ok out → r2 ∈ out →
      ∃ rs, rs ∈ items ∧ r2 = serialize_doc rs) ∧
    (∀ (r : Record) (o : OId), Record.get? r "_id" = some (.vOid o) →
      Record.get? (serialize_doc r) "id" = some (.vStr (encodeOId o)) ∧
      Record.get? (serialize_doc r) "_id" = none ∧
      (∀ o2, Record.get? r "section_id" = some (.vOid o2) →
        Record.get? (serialize_doc r) "section_id" = some (.vStr (encodeOId o2))) ∧
      (∀ k, k ≠ "_id" → k ≠ "id" → k ≠ "section_id" →
        Record.get? (serialize_doc r) k = Record.get? r k)) := by
  refine ⟨?_, ?_, ?_⟩
  · intro db q r2 h
    simp only [list_docs] at h
    obtain ⟨rs, hrs, hser⟩ := List.mem_map.mp h
    refine ⟨rs, ?_, hser.symm⟩
    exact List.mem_of_mem_filter hrs
  · intro items out r2 hok h
    have hout : out = (items.mergeSort okeyLe).map serialize_doc := by
      by_cases hc : (2 ≤ items.length &&
          items.any fun r => (orderKeyInt r).isNone) = true
      · simp only [list_sections, hc, if_true] at hok
        exact Except.noConfusion hok
      · rw [Bool.not_eq_true] at hc
        simp only [list_sections, hc, Bool.false_eq_true, if_false] at hok
        injection hok with h2
        exact h2.symm
    subst hout
    obtain ⟨rs, hrs, hser⟩ := List.mem_map.mp h
    exact ⟨rs, List.mem_mergeSort.mp hrs, hser.symm⟩
  · intro r o h
    refine ⟨get?_serialize_doc_id h, get?_serialize_doc_id_none r, ?_, ?_⟩
    · intro o2 h2
      exact get?_serialize_doc_section_id h2
    · intro k h1 h2 h3
      exact get?_serialize_doc_other r k h1 h2 h3

/-- C10, witness: the serialization properties at a concrete stored record. -/
theorem C10_witness :
    Record.get? (serialize_doc
        [("_id", Value.vOid ⟨[0,0,0,0,0,0,0,0,0,0,0,3]⟩), ("title", Value.vStr "t")])
      "_id" = none ∧
    Record.get? (serialize_doc
        [("_id", Value.vOid ⟨[0,0,0,0,0,0,0,0,0,0,0,3]⟩), ("title", Value.vStr "t")])
      "title" = some (Value.vStr "t") :=
  ⟨(C10_serialization_invariant.2.2
      [("_id", Value.vOid ⟨[0,0,0,0,0,0,0,0,0,0,0,3]⟩), ("title", Value.vStr "t")]
      ⟨[0,0,0,0,0,0,0,0,0,0,0,3]⟩ rfl).2.1,
   (C10_serialization_invariant.2.2
      [("_id", Value.vOid ⟨[0,0,0,0,0,0,0,0,0,0,0,3]⟩), ("title", Value.vStr "t")]
      ⟨[0,0,0,0,0,0,0,0,0,0,0,3]⟩ rfl).2.2.2 "title"
      (by decide) (by decide) (by decide)⟩
